import Mathlib

/-!
Shallow embedding of the core of the `ocr-proofread` repository
(`src/ocr_proofread/core`): the data model (`models.py`), the hOCR parser
(`parser.py`), the validator (`validator.py`) and the exporter
(`exporter.py`), together with theorems checking the natural-language
specification against this code.

Python strings are modelled as `String` (record fields) and `List Char`
(character-level operations); Python `dict`s are modelled as insertion-ordered
association lists with Python assignment/lookup semantics; Python `int` is
`Int`; `datetime` values are modelled as `Nat` timestamps; fallible Python
code returns `Option`/`Except`.
-/

namespace OcrProofread

/-! ### Python string and dict primitives -/

/-- Python `str.split()` (no separator): split on runs of whitespace,
discarding empty fields. -/
def pySplitWs (s : List Char) : List (List Char) :=
  let rec go (cur : List Char) (acc : List (List Char)) : List Char → List (List Char)
    | [] => if cur = [] then acc.reverse else (cur.reverse :: acc).reverse
    | c :: rest =>
      if c.isWhitespace then
        if cur = [] then go [] acc rest else go [] (cur.reverse :: acc) rest
      else go (c :: cur) acc rest
  go [] [] s

/-- Python `str.split(sep)` for a one-character separator: empty fields are
kept (so the result always has one more field than there are separators). -/
def pySplitChar (sep : Char) (s : List Char) : List (List Char) :=
  let rec go (cur : List Char) (acc : List (List Char)) : List Char → List (List Char)
    | [] => (cur.reverse :: acc).reverse
    | c :: rest =>
      if c = sep then go [] (cur.reverse :: acc) rest else go (c :: cur) acc rest
  go [] [] s

/-- Python `str.split(None, 1)`: at most one split, on the first whitespace
run, with surrounding whitespace stripped from both fields. -/
def pySplitNone1 (s : List Char) : List (List Char) :=
  let s1 := s.dropWhile Char.isWhitespace
  if s1 = [] then []
  else
    let first := s1.takeWhile (fun c => ¬ c.isWhitespace)
    let rest := (s1.dropWhile (fun c => ¬ c.isWhitespace)).dropWhile Char.isWhitespace
    if rest = [] then [first] else [first, rest]

/-- Python `str.strip()`: drop whitespace from both ends. -/
def pyStrip (s : List Char) : List Char :=
  ((s.dropWhile Char.isWhitespace).reverse.dropWhile Char.isWhitespace).reverse

/-- Python `int(s)`: an optional sign followed by one or more decimal digits
(underscore digit grouping is not modelled; the fields fed to it here are
whitespace-free). `none` models the `ValueError`. -/
def pyInt : List Char → Option Int
  | [] => none
  | '-' :: rest =>
    if rest ≠ [] ∧ rest.all Char.isDigit then
      some (-(rest.foldl (fun a c => a * 10 + (c.toNat - 48)) 0 : Nat))
    else none
  | '+' :: rest =>
    if rest ≠ [] ∧ rest.all Char.isDigit then
      some ((rest.foldl (fun a c => a * 10 + (c.toNat - 48)) 0 : Nat))
    else none
  | s =>
    if s.all Char.isDigit then
      some ((s.foldl (fun a c => a * 10 + (c.toNat - 48)) 0 : Nat))
    else none

/-- Python dict assignment `d[k] = v` on an insertion-ordered association
list: overwrite in place if the key is present, else append. -/
def pySet {κ ν : Type} [DecidableEq κ] : List (κ × ν) → κ → ν → List (κ × ν)
  | [], k, v => [(k, v)]
  | (k0, v0) :: rest, k, v =>
    if k0 = k then (k, v) :: rest else (k0, v0) :: pySet rest k v

/-- Python dict lookup `d[k]` / `k in d` on an association list. -/
def pyGet {κ ν : Type} [DecidableEq κ] : List (κ × ν) → κ → Option ν
  | [], _ => none
  | (k0, v0) :: rest, k => if k0 = k then some v0 else pyGet rest k

/-- Python list indexing `l[i]` with a signed index: negative indices count
from the end; `none` models the `IndexError`. -/
def pyIndex {α : Type} (l : List α) (i : Int) : Option α :=
  if 0 ≤ i then l.get? i.toNat
  else if (-i).toNat ≤ l.length then l.get? (l.length - (-i).toNat)
  else none

/-- Python `set.add` on a list kept without duplicates (insertion order). -/
def pySetAdd {α : Type} [DecidableEq α] (l : List α) (x : α) : List α :=
  if x ∈ l then l else l ++ [x]

/-- Python `os.path.basename` for the paths used here (split at `/`). -/
def pyBasename (p : String) : String :=
  String.mk ((p.toList.reverse.takeWhile (· ≠ '/')).reverse)

/-! ### Geometry (`models.py`: `BoundingBox`) -/

/-- Absolute value of a Python int. -/
def pyAbs (a : Int) : Int := if a < 0 then -a else a

/-- `models.BoundingBox`: a bounding box with coordinates. -/
structure BoundingBox where
  x1 : Int
  y1 : Int
  x2 : Int
  y2 : Int
deriving Repr, DecidableEq

namespace BoundingBox

/-- `BoundingBox.matches` (renamed: `matches` is reserved in Lean): all four
coordinate deltas within `tolerance`. -/
def matches_within (self other : BoundingBox) (tolerance : Int) : Bool :=
  pyAbs (self.x1 - other.x1) ≤ tolerance ∧
  pyAbs (self.y1 - other.y1) ≤ tolerance ∧
  pyAbs (self.x2 - other.x2) ≤ tolerance ∧
  pyAbs (self.y2 - other.y2) ≤ tolerance

/-- `BoundingBox.max_difference`: the maximum of the four absolute
coordinate deltas. -/
def max_difference (self other : BoundingBox) : Int :=
  max (pyAbs (self.x1 - other.x1))
    (max (pyAbs (self.y1 - other.y1))
      (max (pyAbs (self.x2 - other.x2)) (pyAbs (self.y2 - other.y2))))

/-- `BoundingBox.from_string` as observed through its callers: parse a
string like `bbox 256 161 302 196`; `none` models the raised `ValueError`
(including the `int()` failures), which every caller catches. -/
def from_string? (bbox_str : List Char) : Option BoundingBox :=
  let parts := pySplitWs (pyStrip bbox_str)
  if 5 ≤ parts.length ∧ parts.getD 0 [] = "bbox".toList then
    match pyInt (parts.getD 1 []), pyInt (parts.getD 2 []),
        pyInt (parts.getD 3 []), pyInt (parts.getD 4 []) with
    | some a, some b, some c, some d => some ⟨a, b, c, d⟩
    | _, _, _, _ => none
  else none

end BoundingBox

/-! ### Document model (`models.py`) -/

/-- `models.HocrWord`: exactly the five fields the dataclass declares.
The styling flags the specification lists for a Word are NOT fields of this
dataclass; see `hocr_word_field_names` below. -/
structure HocrWord where
  word_id : String
  text : String
  bbox : BoundingBox
  confidence : Int
  font : Option String
deriving Repr, DecidableEq

/-- `models.HocrLine`. -/
structure HocrLine where
  bbox : BoundingBox
  words : List HocrWord
deriving Repr, DecidableEq

/-- `models.HocrPage`. -/
structure HocrPage where
  bbox : BoundingBox
  lines : List HocrLine
deriving Repr, DecidableEq

/-- `HocrPage.get_all_words`: all words of all lines, in document order. -/
def HocrPage.get_all_words (page : HocrPage) : List HocrWord :=
  page.lines.foldl (fun words line => words ++ line.words) []

/-- `models.HocrDocument` (the `datetime` modification time is a `Nat`). -/
structure HocrDocument where
  filename : String
  filepath : String
  head_content : String
  page : HocrPage
  modified_time : Nat
deriving Repr, DecidableEq

/-- `HocrDocument.get_word_by_id`: first word with the given id, scanning
the flattened word list. -/
def HocrDocument.get_word_by_id (doc : HocrDocument) (word_id : String) :
    Option HocrWord :=
  doc.page.get_all_words.find? (fun word => word.word_id == word_id)

/-- The sort key relation of `ProofreadingUnit.__post_init__`:
descending modification time. -/
def docGe (a b : HocrDocument) : Prop := b.modified_time ≤ a.modified_time

instance : DecidableRel docGe := fun _ _ => Nat.decLe _ _

instance : IsTotal HocrDocument docGe :=
  ⟨fun a b => le_total b.modified_time a.modified_time⟩

instance : IsTrans HocrDocument docGe :=
  ⟨fun _ _ _ hab hbc => le_trans hbc hab⟩

/-- `models.ProofreadingUnit`. -/
structure ProofreadingUnit where
  image_path : String
  image_filename : String
  hocr_documents : List HocrDocument
  basename : String
  subdirectory : Option String
deriving Repr, DecidableEq

/-- Construction of a `ProofreadingUnit`, including `__post_init__`, which
sorts the documents by modification time, newest first (Python `list.sort`
is a stable sort; `insertionSort` with the descending-time relation is). -/
def mkProofreadingUnit (image_path image_filename : String)
    (hocr_documents : List HocrDocument) (basename : String)
    (subdirectory : Option String) : ProofreadingUnit :=
  ⟨image_path, image_filename, hocr_documents.insertionSort docGe,
    basename, subdirectory⟩

/-- `ProofreadingUnit.primary_document` is `self.hocr_documents[0]`;
`none` models the `IndexError` on an empty unit. -/
def ProofreadingUnit.primary_document? (unit : ProofreadingUnit) :
    Option HocrDocument :=
  unit.hocr_documents.head?

/-- `models.ProofreadSession`: `changes` is the `{unit_index: {word_id:
new_text}}` edit overlay; unit indices are Python ints. -/
structure ProofreadSession where
  units : List ProofreadingUnit
  current_index : Int
  changes : List (Int × List (String × String))
deriving Repr, DecidableEq

namespace ProofreadSession

/-- `ProofreadSession.set_word_text` (with an explicit `unit_index`): create
the per-unit overlay dict on first use, then record the edit. -/
def set_word_text (s : ProofreadSession) (word_id text : String)
    (unit_index : Int) : ProofreadSession :=
  let m := (pyGet s.changes unit_index).getD []
  { s with changes := pySet s.changes unit_index (pySet m word_id text) }

/-- The overlay entry of a session for a `(unit_index, word_id)` pair, as
`get_word_text` reads it: `unit_index in self.changes and word_id in
self.changes[unit_index]`. -/
def overlay_entry (s : ProofreadSession) (unit_index : Int)
    (word_id : String) : Option String :=
  (pyGet s.changes unit_index).bind (fun m => pyGet m word_id)

/-- `ProofreadSession.get_word_text` (with an explicit `unit_index`):
overlay entry if present, else the primary document of
`self.units[unit_index]`; `Except.error` models the uncaught
`IndexError` of the list indexing. -/
def get_word_text (s : ProofreadSession) (word_id : String)
    (unit_index : Int) : Except String String :=
  match overlay_entry s unit_index word_id with
  | some t => Except.ok t
  | none =>
    match pyIndex s.units unit_index with
    | none => Except.error "IndexError: list index out of range"
    | some unit =>
      match unit.hocr_documents with
      | [] => Except.error "IndexError: list index out of range"
      | primary :: _ =>
        Except.ok (((primary.get_word_by_id word_id).map HocrWord.text).getD "")

end ProofreadSession

/-! ### Parsed markup trees (the `lxml` elements the parser and exporter
walk). An element has a tag, attributes, its own text, child elements and a
tail (the text following its closing tag inside the parent), exactly the
parts of the `lxml` element interface the repository uses. -/

inductive Elem where
  | mk (tag : String) (attrs : List (String × String)) (text : String)
      (children : List Elem) (tail : String)
deriving Repr

namespace Elem

def tag : Elem → String
  | .mk t _ _ _ _ => t

def attrs : Elem → List (String × String)
  | .mk _ a _ _ _ => a

def text : Elem → String
  | .mk _ _ t _ _ => t

def children : Elem → List Elem
  | .mk _ _ _ cs _ => cs

def tail : Elem → String
  | .mk _ _ _ _ t => t

/-- `element.get(name)`: attribute lookup. -/
def get (e : Elem) (name : String) : Option String :=
  pyGet e.attrs name

mutual

/-- All strict descendants of an element, in document order (the elements
an `.//*`-style XPath visits). -/
def descendants : Elem → List Elem
  | .mk _ _ _ cs _ => descendantsList cs

def descendantsList : List Elem → List Elem
  | [] => []
  | c :: rest => c :: descendants c ++ descendantsList rest

end

mutual

/-- `itertext()` joined: the element text followed by each child's
`itertext` and tail, recursively. -/
def itertext : Elem → List Char
  | .mk _ _ text cs _ => text.toList ++ itertextList cs

def itertextList : List Elem → List Char
  | [] => []
  | c :: rest => itertext c ++ c.tail.toList ++ itertextList rest

end

mutual

/-- `etree.tostring` as the repository relies on it, without entity
escaping (none of the verified properties depend on escaping). -/
def serialize : Elem → List Char
  | .mk tag attrs text cs tail =>
    "<".toList ++ tag.toList
      ++ attrs.foldl (fun acc p =>
          acc ++ (" " ++ p.1 ++ "=\x22" ++ p.2 ++ "\x22").toList) []
      ++ ">".toList ++ text.toList ++ serializeList cs
      ++ ("</" ++ tag ++ ">").toList

def serializeList : List Elem → List Char
  | [] => []
  | c :: rest => serialize c ++ c.tail.toList ++ serializeList rest

end

/-- Document order over an element and all its descendants: what the
`//*`-style XPath lookups from the document root visit. -/
def docOrder (root : Elem) : List Elem :=
  root :: root.descendants

end Elem

/-! ### hOCR parser (`parser.py`: `HocrParser`) -/

/-- Python exceptions escaping the parser: the `ValueError`s it raises
itself, and the `TypeError` the `HocrWord(...)` dataclass call raises. -/
inductive PyExn where
  | valueError (msg : String)
  | typeError (msg : String)
deriving Repr, DecidableEq

namespace HocrParser

/-- `HocrParser.parse_title_attribute`: split the title on `;`, strip each
part, and for each part containing a space, split it at the first
whitespace run into a key/value pair (parts that do not split into exactly
two fields are ignored). -/
def parse_title_attribute (title : List Char) : List (List Char × List Char) :=
  (pySplitChar ';' title).foldl
    (fun result part =>
      let part := pyStrip part
      if part.contains ' ' then
        match pySplitNone1 part with
        | [key, value] => pySet result key value
        | _ => result
      else result)
    []

/-- `HocrParser.extract_bbox`: read the `bbox` key and parse it; `none`
covers both the absent key and the caught `ValueError`/`IndexError`. -/
def extract_bbox (title_attrs : List (List Char × List Char)) :
    Option BoundingBox :=
  match pyGet title_attrs "bbox".toList with
  | none => none
  | some v => BoundingBox.from_string? ("bbox ".toList ++ v)

/-- The field names accepted by the `models.HocrWord` dataclass
constructor (`models.py`, lines 83-99). -/
def hocr_word_field_names : List String :=
  ["word_id", "text", "bbox", "confidence", "font"]

/-- The keyword argument names `HocrParser.parse_word` passes to
`HocrWord(...)` (`parser.py`, lines 129-140). -/
def parse_word_keyword_names : List String :=
  ["word_id", "text", "bbox", "confidence", "font",
   "is_italic", "is_bold", "is_superscript", "has_partial_formatting",
   "raw_html"]

/-- A Python dataclass call accepts its keyword arguments exactly when
every supplied name is a declared field; otherwise `__init__` raises
`TypeError`. -/
def dataclass_call_ok (field_names keyword_names : List String) : Bool :=
  keyword_names.all (field_names.contains ·)

/-- `HocrParser.parse_word`: `.ok none` models the silent drops (missing or
empty `id`, absent or malformed bbox); when a word survives those checks the
source calls `HocrWord(...)` with the styling keyword arguments, so the call
raises `TypeError` whenever the supplied keywords are not all dataclass
fields. -/
def parse_word (element : Elem) : Except PyExn (Option HocrWord) :=
  let word_id := (element.get "id").getD ""
  if word_id = "" then Except.ok none
  else
    let title := (element.get "title").getD ""
    let title_attrs := parse_title_attribute title.toList
    match extract_bbox title_attrs with
    | none => Except.ok none
    | some bbox =>
      let text_content := pyStrip element.itertext
      let confidence : Int :=
        match pyGet title_attrs "x_wconf".toList with
        | some v => (pyInt v).getD 100
        | none => 100
      let font := (pyGet title_attrs "x_font".toList).map String.mk
      if dataclass_call_ok hocr_word_field_names parse_word_keyword_names then
        Except.ok (some
          ⟨word_id, String.mk text_content, bbox, confidence, font⟩)
      else
        Except.error (PyExn.typeError
          "HocrWord.__init__() got an unexpected keyword argument: is_italic")

/-- The word-element loop of `parse_line`: parse each element, keep the
successful words, propagate an escaping exception. -/
def parse_words_acc : List Elem → Except PyExn (List HocrWord)
  | [] => Except.ok []
  | e :: rest => do
    let w ← parse_word e
    let ws ← parse_words_acc rest
    match w with
    | some word => Except.ok (word :: ws)
    | none => Except.ok ws

/-- `HocrParser.parse_line`: `.ok none` models the silent drop of a line
without a usable bbox; word elements are the descendants of class
`ocrx_word`. -/
def parse_line (element : Elem) : Except PyExn (Option HocrLine) :=
  let title := (element.get "title").getD ""
  let title_attrs := parse_title_attribute title.toList
  match extract_bbox title_attrs with
  | none => Except.ok none
  | some bbox => do
    let word_elements :=
      element.descendants.filter (fun e => e.get "class" == some "ocrx_word")
    let words ← parse_words_acc word_elements
    Except.ok (some ⟨bbox, words⟩)

/-- The line-element loop of `parse_page`. -/
def parse_lines_acc : List Elem → Except PyExn (List HocrLine)
  | [] => Except.ok []
  | e :: rest => do
    let l ← parse_line e
    let ls ← parse_lines_acc rest
    match l with
    | some line => Except.ok (line :: ls)
    | none => Except.ok ls

/-- `HocrParser.parse_page`: `.ok none` models the page without a usable
bbox; line elements are the descendants of class `ocr_line`. -/
def parse_page (element : Elem) : Except PyExn (Option HocrPage) :=
  let title := (element.get "title").getD ""
  let title_attrs := parse_title_attribute title.toList
  match extract_bbox title_attrs with
  | none => Except.ok none
  | some bbox => do
    let line_elements :=
      element.descendants.filter (fun e => e.get "class" == some "ocr_line")
    let lines ← parse_lines_acc line_elements
    Except.ok (some ⟨bbox, lines⟩)

/-- `HocrParser.parse_file` over the already-read input: `none` input
models a byte stream that is not well-formed XML (the `XMLSyntaxError`
re-raised as `ValueError`); the namespaced/bare `head` lookups are merged
into one tag lookup; the first element of class `ocr_page` in document
order is the page element (`page_elem[0]`). -/
def parse_file (input : Option Elem) (filepath : String)
    (modified_time : Nat) : Except PyExn HocrDocument :=
  match input with
  | none => Except.error (PyExn.valueError ("Invalid XML in " ++ filepath))
  | some root =>
    let head_content :=
      match root.descendants.find? (fun e => e.tag == "head") with
      | some h => String.mk h.serialize
      | none => ""
    match (root.docOrder).filter (fun e => e.get "class" == some "ocr_page") with
    | [] =>
      Except.error (PyExn.valueError ("No ocr_page element found in " ++ filepath))
    | page_elem :: _ =>
      match parse_page page_elem with
      | Except.error e => Except.error e
      | Except.ok none =>
        Except.error (PyExn.valueError ("Failed to parse page in " ++ filepath))
      | Except.ok (some page) =>
        Except.ok ⟨pyBasename filepath, filepath, head_content, page, modified_time⟩

end HocrParser

/-! ### Validator (`validator.py`) -/

/-- `validator.ValidationMessage`: level (`info`/`warning`/`critical` as in
the `LEVEL_*` constants), message text, optional unit index. -/
structure ValidationMessage where
  level : String
  message : String
  unit_index : Option Int
deriving Repr, DecidableEq

namespace Validator

/-- The message of the image-dimension mismatch finding. -/
def mismatch_message (img_width img_height bbox_width bbox_height : Int)
    (image_filename : String) : String :=
  "Image dimensions (" ++ toString img_width ++ "x" ++ toString img_height
    ++ ") do not match page bbox dimensions (" ++ toString bbox_width ++ "x"
    ++ toString bbox_height ++ ") for " ++ image_filename

/-- The message of the finding produced when validating the image
dimensions raises: the underlying error is embedded at the end. -/
def fail_message (image_filename err : String) : String :=
  "Failed to validate image dimensions for " ++ image_filename ++ ": " ++ err

/-- `Validator._validate_image_dimensions`: the image dimension lookup
(`PIL.Image.open`) is an external effect, supplied as an `Except` value;
the `try`/`except` turns any failure into a single critical finding. A unit
with no documents makes `primary_document` raise `IndexError` inside the
same `try`, which the `except` also converts to a critical finding. -/
def validate_image_dimensions (img_dims : Except String (Int × Int))
    (unit : ProofreadingUnit) (unit_index : Int) : List ValidationMessage :=
  match img_dims with
  | Except.error e =>
    [⟨"critical", fail_message unit.image_filename e, some unit_index⟩]
  | Except.ok (img_width, img_height) =>
    match unit.hocr_documents with
    | [] =>
      [⟨"critical",
        fail_message unit.image_filename "IndexError: list index out of range",
        some unit_index⟩]
    | primary :: _ =>
      let bbox_width := primary.page.bbox.x2 - primary.page.bbox.x1
      let bbox_height := primary.page.bbox.y2 - primary.page.bbox.y1
      if img_width ≠ bbox_width ∨ img_height ≠ bbox_height then
        [⟨"critical",
          mismatch_message img_width img_height bbox_width bbox_height
            unit.image_filename,
          some unit_index⟩]
      else []

/-- The critical bounding-box difference message. -/
def critical_bbox_message (max_diff : Int) (word_id image_filename
    primary_filename : String) (other_word : HocrWord) : String :=
  "Critical bounding box difference (" ++ toString max_diff
    ++ "px) for word " ++ word_id ++ " in " ++ image_filename
    ++ " between " ++ primary_filename ++ " and " ++ other_word.word_id

/-- The warning bounding-box difference message. -/
def warning_bbox_message (max_diff : Int) (word_id image_filename : String) :
    String :=
  "Bounding box difference (" ++ toString max_diff ++ "px) for word "
    ++ word_id ++ " in " ++ image_filename

/-- The body of the innermost loop of `_validate_bounding_boxes`: the
findings one `(primary_word, other_word)` pair contributes. -/
def bbox_pair_messages (tolerance critical_threshold : Int)
    (image_filename primary_filename : String) (unit_index : Int)
    (primary_word other_word : HocrWord) : List ValidationMessage :=
  let max_diff := primary_word.bbox.max_difference other_word.bbox
  if critical_threshold < max_diff then
    [⟨"critical",
      critical_bbox_message max_diff primary_word.word_id image_filename
        primary_filename other_word,
      some unit_index⟩]
  else if tolerance < max_diff then
    [⟨"warning",
      warning_bbox_message max_diff primary_word.word_id image_filename,
      some unit_index⟩]
  else []

/-- The `other_words_by_id` dict of `_validate_bounding_boxes`: words of
every non-primary document, grouped by word id in encounter order. -/
def build_other_words (docs : List HocrDocument) :
    List (String × List HocrWord) :=
  docs.foldl
    (fun d doc =>
      doc.page.get_all_words.foldl
        (fun d word =>
          pySet d word.word_id ((pyGet d word.word_id).getD [] ++ [word]))
        d)
    []

/-- `Validator._validate_bounding_boxes` with the configuration values
passed explicitly (`config.bbox_tolerance`,
`config.bbox_critical_threshold`). -/
def validate_bounding_boxes (tolerance critical_threshold : Int)
    (unit : ProofreadingUnit) (unit_index : Int) : List ValidationMessage :=
  match unit.hocr_documents with
  | [] => []
  | primary :: others =>
    let other_words_by_id := build_other_words others
    primary.page.get_all_words.flatMap (fun primary_word =>
      ((pyGet other_words_by_id primary_word.word_id).getD []).flatMap
        (fun other_word =>
          bbox_pair_messages tolerance critical_threshold
            unit.image_filename primary.filename unit_index
            primary_word other_word))

/-- The same-id word pairs `_validate_bounding_boxes` compares: each word
of the primary document against each same-id word of the other documents. -/
def unit_word_pairs (unit : ProofreadingUnit) : List (HocrWord × HocrWord) :=
  match unit.hocr_documents with
  | [] => []
  | primary :: others =>
    primary.page.get_all_words.flatMap (fun primary_word =>
      ((pyGet (build_other_words others) primary_word.word_id).getD []).map
        (fun other_word => (primary_word, other_word)))

/-- The filename of a unit's primary document (empty for an empty unit). -/
def primary_filename (unit : ProofreadingUnit) : String :=
  ((unit.primary_document?).map HocrDocument.filename).getD ""

/-- `Validator.validate_unit`: image-dimension findings always, bounding-box
findings only when the unit has more than one document. -/
def validate_unit (tolerance critical_threshold : Int)
    (img_dims : Except String (Int × Int)) (unit : ProofreadingUnit)
    (unit_index : Int) : List ValidationMessage :=
  validate_image_dimensions img_dims unit unit_index
    ++ (if 1 < unit.hocr_documents.length then
          validate_bounding_boxes tolerance critical_threshold unit unit_index
        else [])

/-- The `texts` set of `Validator.words_match_across_documents`: the text
of the word found by id in each document, collected without duplicates. -/
def match_texts (unit : ProofreadingUnit) (word_id : String) : List String :=
  unit.hocr_documents.foldl
    (fun texts doc =>
      match doc.get_word_by_id word_id with
      | some word => pySetAdd texts word.text
      | none => texts)
    []

/-- `Validator.words_match_across_documents`: matching means at most one
distinct text. -/
def words_match_across_documents (unit : ProofreadingUnit)
    (word_id : String) : Bool :=
  (match_texts unit word_id).length ≤ 1

/-- `Validator.all_words_match_in_unit`: trivially true with at most one
document, else every primary-document word must match across documents. -/
def all_words_match_in_unit (unit : ProofreadingUnit) : Bool :=
  if unit.hocr_documents.length ≤ 1 then true
  else
    match unit.hocr_documents with
    | [] => true
    | primary :: _ =>
      primary.page.get_all_words.all
        (fun word => words_match_across_documents unit word.word_id)

/-- The claim-side reading for C5, following the specification words: the
set of distinct text values carried by words with the given identifier
across all of the unit's hypothesis documents. -/
def spec_distinct_texts (unit : ProofreadingUnit) (word_id : String) :
    List String :=
  (((unit.hocr_documents.flatMap (fun doc => doc.page.get_all_words)).filter
      (fun w => w.word_id == word_id)).map HocrWord.text).dedup

end Validator

/-! ### Exporter (`exporter.py`: `HocrExporter`) -/

namespace Elem

/-- Whether the tree contains an element with the given `id` attribute:
the emptiness test of the `//*[@id=...]` lookup. -/
def hasId (wid : String) (e : Elem) : Bool :=
  (e.docOrder).any (fun d => d.get "id" == some wid)

mutual

/-- Apply `f` to the first element in document order whose `id` attribute
is `wid` (the `word_elem[0]` of the `//*[@id=...]` lookup); the `Bool`
reports whether a match was found, and an unmatched tree is returned
unchanged. -/
def updateById (wid : String) (f : Elem → Elem) : Elem → Elem × Bool
  | .mk tag attrs text cs tail =>
    if pyGet attrs "id" == some wid then
      (f (.mk tag attrs text cs tail), true)
    else
      let r := updateByIdList wid f cs
      (.mk tag attrs text r.1 tail, r.2)

def updateByIdList (wid : String) (f : Elem → Elem) :
    List Elem → List Elem × Bool
  | [] => ([], false)
  | c :: rest =>
    let r := updateById wid f c
    if r.2 then (r.1 :: rest, true)
    else
      let rr := updateByIdList wid f rest
      (c :: rr.1, rr.2)

end

/-- Replace the element's own text (`elem.text = ...`). -/
def setText (e : Elem) (t : String) : Elem :=
  .mk e.tag e.attrs t e.children e.tail

/-- `elem.set(name, value)`. -/
def setAttr (e : Elem) (name value : String) : Elem :=
  .mk e.tag (pySet e.attrs name value) e.text e.children e.tail

/-- `del elem.attrib[name]`. -/
def delAttr (e : Elem) (name : String) : Elem :=
  .mk e.tag (e.attrs.filter (fun p => p.1 ≠ name)) e.text e.children e.tail

/-- `etree.SubElement(elem, tag)` followed by setting its text: append a
fresh child at the end. -/
def appendChild (e : Elem) (c : Elem) : Elem :=
  .mk e.tag e.attrs e.text (e.children ++ [c]) e.tail

end Elem

namespace HocrExporter

/-- The per-word change payload of `export_unit`: either the old plain
string format or the dict format (optional replacement text plus the three
styling flags, absent dict keys being falsy). -/
inductive Change where
  | plainText (text : String)
  | styled (text : Option String) (is_italic is_bold is_superscript : Bool)
deriving Repr

/-- The superscript-dissolving pass of `export_unit`: each `sup` child has
its text appended onto the parent text and is removed (the `findall` is
modelled over the direct children, where the exporter creates the `sup`
elements). -/
def dissolve_sup (e : Elem) : Elem :=
  match e with
  | .mk tag attrs text cs tail =>
    let sup_text := (cs.filter (fun c => c.tag == "sup")).foldl
      (fun acc c => acc ++ c.text) ""
    .mk tag attrs (text ++ sup_text) (cs.filter (fun c => ¬ c.tag == "sup")) tail

/-- `;`-join of style parts. -/
def joinStyleParts (parts : List (List Char)) : String :=
  String.mk (String.intercalate ";" (parts.map String.mk)).toList

/-- The change-application body of `export_unit`: plain string changes set
the element text; dict changes optionally set the text, rewrite the
`style` attribute (dropping existing `font-style:`/`font-weight:` entries,
appending the requested ones, deleting an empty attribute), and wrap the
text in a `sup` child or dissolve existing `sup` children. -/
def apply_change (change : Change) (e : Elem) : Elem :=
  match change with
  | Change.plainText t => e.setText t
  | Change.styled text_opt is_italic is_bold is_superscript =>
    let e := match text_opt with
      | some t => e.setText t
      | none => e
    let style := (e.get "style").getD ""
    let style_parts :=
      ((pySplitChar ';' style.toList).map pyStrip).filter (fun s => s ≠ [])
    let style_parts := style_parts.filter (fun s =>
      ¬ ("font-style:".toList.isPrefixOf s)
        ∧ ¬ ("font-weight:".toList.isPrefixOf s))
    let style_parts := style_parts
      ++ (if is_italic then ["font-style:italic".toList] else [])
      ++ (if is_bold then ["font-weight:bold".toList] else [])
    let e :=
      if is_superscript then
        let t := e.text
        (e.setText "").appendChild (Elem.mk "sup" [] t [] "")
      else
        dissolve_sup e
    if style_parts ≠ [] then e.setAttr "style" (joinStyleParts style_parts)
    else e.delAttr "style"

/-- The change-applying loop of `HocrExporter.export_unit`, on the re-parsed
tree of the primary document: for each edited identifier, the first element
with that id is located and the change applied; identifiers matching no
element are skipped silently. Writing the tree out is an external effect. -/
def export_unit_tree (root : Elem) (changes : List (String × Change)) : Elem :=
  changes.foldl (fun root p => (Elem.updateById p.1 (apply_change p.2) root).1)
    root

/-- The word-level content of a tree: for every element of word class, its
id, its text content and its title bbox. Re-serialization may change
indentation or structure, so content preservation is stated through this
projection. -/
def word_content (root : Elem) :
    List (String × List Char × Option BoundingBox) :=
  ((root.docOrder).filter (fun e => e.get "class" == some "ocrx_word")).map
    (fun e =>
      (((e.get "id").getD ""), Elem.itertext e,
        HocrParser.extract_bbox
          (HocrParser.parse_title_attribute ((e.get "title").getD "").toList)))

/-- `os.path.splitext(name)[0]` for a plain filename: the part before the
last dot, provided a non-dot character precedes that dot. -/
def splitext_stem (name : List Char) : List Char :=
  let rev := name.reverse
  let ext_rev := rev.takeWhile (fun c => c ≠ '.')
  if ext_rev.length = name.length then name
  else
    let stem := (rev.drop (ext_rev.length + 1)).reverse
    if stem.any (fun c => c ≠ '.') then stem else name

/-- `re.sub(r"[_-]?\x5cd+$", "", name)`: remove a trailing run of decimal
digits together with at most one `_` or `-` immediately before it. -/
def strip_trailing_number (name : List Char) : List Char :=
  let rev := name.reverse
  let digits := rev.takeWhile Char.isDigit
  if digits = [] then name
  else
    match rev.drop digits.length with
    | [] => []
    | c :: rest2 =>
      if c = '_' ∨ c = '-' then rest2.reverse else (c :: rest2).reverse

/-- `HocrExporter.create_merged_filename`: strip the extension and the
trailing number run, then append `-onepage.hocr`. -/
def create_merged_filename (first_image_name : String) : String :=
  String.mk
    (strip_trailing_number (splitext_stem first_image_name.toList)
      ++ "-onepage.hocr".toList)

end HocrExporter

/-! ### Concrete fixtures -/

/-- A word element with an id and a parsable bbox: by the specification it
must parse into a Word. -/
def ex_word_elem : Elem :=
  .mk "span" [("class", "ocrx_word"), ("id", "word_1"), ("title", "bbox 1 2 3 4")]
    "hi" [] ""

/-- A line element with a parsable bbox containing `ex_word_elem`. -/
def ex_line_elem : Elem :=
  .mk "span" [("class", "ocr_line"), ("title", "bbox 0 0 10 10")] ""
    [ex_word_elem] ""

/-- A page element with a parsable bbox containing `ex_line_elem`. -/
def ex_page_elem : Elem :=
  .mk "div" [("class", "ocr_page"), ("title", "bbox 0 0 100 100")] ""
    [ex_line_elem] ""

/-- A well-formed hOCR tree: page with bbox, one line, one valid word. -/
def ex_root : Elem := .mk "html" [] "" [ex_page_elem] ""

/-- A document with modification time 1. -/
def ex_doc_t1 : HocrDocument := ⟨"a.hocr", "a.hocr", "", ⟨⟨0, 0, 8, 6⟩, []⟩, 1⟩

/-- A document with modification time 2. -/
def ex_doc_t2 : HocrDocument := ⟨"c.hocr", "c.hocr", "", ⟨⟨0, 0, 8, 6⟩, []⟩, 2⟩

/-- A document with modification time 3. -/
def ex_doc_t3 : HocrDocument := ⟨"b.hocr", "b.hocr", "", ⟨⟨0, 0, 8, 6⟩, []⟩, 3⟩

/-- A unit with one document whose page bbox spans 8 x 6. -/
def ex_unit : ProofreadingUnit := ⟨"img.jpg", "img.jpg", [ex_doc_t1], "img", none⟩

/-- A word at the origin. -/
def ex_word_a : HocrWord := ⟨"w1", "t", ⟨0, 0, 0, 0⟩, 100, none⟩

/-- Same id as `ex_word_a`, bbox shifted by 1 pixel. -/
def ex_word_b1 : HocrWord := ⟨"w1", "t", ⟨1, 0, 0, 0⟩, 100, none⟩

/-- Same id as `ex_word_a`, bbox shifted by 3 pixels. -/
def ex_word_b3 : HocrWord := ⟨"w1", "t", ⟨3, 0, 0, 0⟩, 100, none⟩

/-- Same id as `ex_word_a`, bbox shifted by 25 pixels. -/
def ex_word_b25 : HocrWord := ⟨"w1", "t", ⟨25, 0, 0, 0⟩, 100, none⟩


/-- A document carrying word `w1` with text `the`, modification time 3. -/
def ex_doc_the1 : HocrDocument :=
  ⟨"d1.hocr", "d1.hocr", "",
    ⟨⟨0, 0, 8, 6⟩, [⟨⟨0, 0, 1, 1⟩, [⟨"w1", "the", ⟨0, 0, 1, 1⟩, 100, none⟩]⟩]⟩, 3⟩

/-- A document carrying word `w1` with text `the`, modification time 2. -/
def ex_doc_the2 : HocrDocument :=
  ⟨"d2.hocr", "d2.hocr", "",
    ⟨⟨0, 0, 8, 6⟩, [⟨⟨0, 0, 1, 1⟩, [⟨"w1", "the", ⟨0, 0, 1, 1⟩, 100, none⟩]⟩]⟩, 2⟩

/-- A document carrying word `w1` with text `teh`, modification time 1. -/
def ex_doc_teh : HocrDocument :=
  ⟨"d3.hocr", "d3.hocr", "",
    ⟨⟨0, 0, 8, 6⟩, [⟨⟨0, 0, 1, 1⟩, [⟨"w1", "teh", ⟨0, 0, 1, 1⟩, 100, none⟩]⟩]⟩, 1⟩

/-- A unit with three hypothesis documents reading the/the/teh for `w1`. -/
def ex_unit3 : ProofreadingUnit :=
  ⟨"i.jpg", "i.jpg", [ex_doc_the1, ex_doc_the2, ex_doc_teh], "i", none⟩

/-- A one-word, one-document, one-unit session. -/
def ex_session : ProofreadSession :=
  ⟨[mkProofreadingUnit "img.jpg" "img.jpg"
      [⟨"f.hocr", "f.hocr", "",
        ⟨⟨0, 0, 10, 10⟩, [⟨⟨1, 2, 3, 4⟩, [⟨"w1", "hi", ⟨1, 2, 3, 4⟩, 95, none⟩]⟩]⟩,
        5⟩]
      "img" none],
    0, []⟩

/-! ### Helper lemmas -/

theorem takeWhile_append_of_all (p : Char → Bool) (xs ys : List Char)
    (h : ∀ c ∈ xs, p c) :
    (xs ++ ys).takeWhile p = xs ++ ys.takeWhile p := by
  induction xs with
  | nil => simp
  | cons x xs ih =>
    rw [List.cons_append, List.takeWhile_cons, if_pos (h x (List.mem_cons_self x xs)),
      ih (fun c hc => h c (List.mem_cons_of_mem x hc)), List.cons_append]

theorem takeWhile_all_stop (p : Char → Bool) (xs : List Char) (y : Char)
    (ys : List Char) (h : ∀ c ∈ xs, p c) (hy : p y = false) :
    (xs ++ y :: ys).takeWhile p = xs := by
  rw [takeWhile_append_of_all p xs (y :: ys) h, List.takeWhile_cons, hy]
  simp

/-- `splitext_stem` on a filename whose extension holds no dot and whose
stem holds a non-dot character returns the stem. -/
theorem splitext_stem_eq (u ext : List Char)
    (hext : ∀ c ∈ ext, c ≠ '.') (hu : ∃ c ∈ u, c ≠ '.') :
    HocrExporter.splitext_stem (u ++ '.' :: ext) = u := by
  have hrev : (u ++ '.' :: ext).reverse = (ext.reverse ++ ['.']) ++ u.reverse := by
    simp [List.reverse_append]
  have htake : ((ext.reverse ++ ['.']) ++ u.reverse).takeWhile (fun c => decide (c ≠ '.'))
      = ext.reverse := by
    rw [List.append_assoc]
    refine takeWhile_all_stop _ _ _ _ ?_ (by simp)
    intro c hc
    simp only [List.mem_reverse] at hc
    simp [hext c hc]
  have hlen : ¬ (ext.reverse.length = (u ++ '.' :: ext).length) := by
    simp
    omega
  have hdrop : (((ext.reverse ++ ['.']) ++ u.reverse).drop (ext.reverse.length + 1))
      = u.reverse := by
    have h1 : ext.reverse.length + 1 = (ext.reverse ++ ['.']).length := by simp
    rw [h1, List.drop_left]
  have hany : (u.any fun c => decide (c ≠ '.')) = true := by
    obtain ⟨c, hcmem, hcne⟩ := hu
    exact List.any_eq_true.mpr ⟨c, hcmem, by simp [hcne]⟩
  simp only [HocrExporter.splitext_stem, hrev, htake, hdrop, List.reverse_reverse, hany,
    if_true, if_neg hlen]

/-- `strip_trailing_number` removes a trailing digit run preceded by a
single `_` or `-`. -/
theorem strip_trailing_sep (s d : List Char) (c : Char)
    (hc : c = '_' ∨ c = '-') (hd : d ≠ []) (hdd : ∀ x ∈ d, x.isDigit) :
    HocrExporter.strip_trailing_number (s ++ c :: d) = s := by
  have hrev : (s ++ c :: d).reverse = d.reverse ++ c :: s.reverse := by
    simp [List.reverse_append]
  have hcnd : c.isDigit = false := by
    rcases hc with h | h <;> simp [h]
  have htake : (d.reverse ++ c :: s.reverse).takeWhile Char.isDigit = d.reverse := by
    refine takeWhile_all_stop _ _ _ _ ?_ hcnd
    intro x hx
    exact hdd x (List.mem_reverse.mp hx)
  have hne : ¬ (d.reverse = ([] : List Char)) := by simp [hd]
  have hdrop : (d.reverse ++ c :: s.reverse).drop d.reverse.length = c :: s.reverse :=
    List.drop_left _ _
  simp only [HocrExporter.strip_trailing_number, hrev, htake, if_neg hne, hdrop]
  rw [if_pos hc, List.reverse_reverse]

/-- `strip_trailing_number` removes a bare trailing digit run when the stem
before it ends in none of digit, `_`, `-`. -/
theorem strip_trailing_nosep (s d : List Char)
    (hd : d ≠ []) (hdd : ∀ x ∈ d, x.isDigit)
    (hs : ∀ c, s.getLast? = some c → c.isDigit = false ∧ c ≠ '_' ∧ c ≠ '-') :
    HocrExporter.strip_trailing_number (s ++ d) = s := by
  match hsm : s.reverse with
  | [] =>
    have hsnil : s = [] := by simpa using congrArg List.reverse hsm
    subst hsnil
    have htake : (d.reverse).takeWhile Char.isDigit = d.reverse :=
      List.takeWhile_eq_self_iff.mpr (fun x hx => hdd x (List.mem_reverse.mp hx))
    have hne : ¬ (d.reverse = ([] : List Char)) := by simp [hd]
    simp only [List.nil_append, HocrExporter.strip_trailing_number, htake, if_neg hne,
      List.drop_length]
  | c :: rest =>
    obtain ⟨hcd, hcu, hch⟩ := hs c (by rw [List.getLast?_eq_head?_reverse, hsm]; rfl)
    have hrev : (s ++ d).reverse = d.reverse ++ c :: rest := by
      rw [List.reverse_append, hsm]
    have htake : (d.reverse ++ c :: rest).takeWhile Char.isDigit = d.reverse := by
      refine takeWhile_all_stop _ _ _ _ ?_ hcd
      intro x hx
      exact hdd x (List.mem_reverse.mp hx)
    have hne : ¬ (d.reverse = ([] : List Char)) := by simp [hd]
    have hdrop : (d.reverse ++ c :: rest).drop d.reverse.length = c :: rest :=
      List.drop_left _ _
    have hback : (c :: rest).reverse = s := by
      rw [← hsm, List.reverse_reverse]
    simp only [HocrExporter.strip_trailing_number, hrev, htake, if_neg hne, hdrop]
    rw [if_neg (by simp [hcu, hch])]
    exact hback

/-! ### Theorems for the claims -/

/-- C1: the specification promises that for every well-formed input
containing a page element with a parsable bbox, `parse` returns a Document
without error, failures being reserved for malformed markup
(`MalformedDocument`) or a missing/unusable page element
(`SchemaViolation`). The code violates this promise: `ex_root` is
well-formed, its page element is found and its bbox parses (first two
conjuncts), yet `parse_file` raises an uncaught `TypeError` (third
conjunct), because `parse_word` calls `HocrWord(...)` with styling keyword
arguments the `models.py` dataclass does not declare. The specification is
clearly the intent (it lists those styling fields on the Word model) and
the code a slip, so the claim stands and the code is at fault. -/
theorem C1_parse_file_crashes_on_well_formed_input :
    ((Elem.docOrder ex_root).filter
        (fun e => e.get "class" == some "ocr_page")).length = 1 ∧
    HocrParser.extract_bbox (HocrParser.parse_title_attribute
        ((ex_page_elem.get "title").getD "").toList) = some ⟨0, 0, 100, 100⟩ ∧
    HocrParser.parse_file (some ex_root) "sample.hocr" 0 =
      Except.error (PyExn.typeError
        "HocrWord.__init__() got an unexpected keyword argument: is_italic") :=
  ⟨rfl, rfl, rfl⟩

/-- C2: the specification promises that a word element carrying an id and a
parsable bbox yields a Word record. On the code, `ex_word_elem` has a
non-empty id and a parsable bbox (first two conjuncts), the keyword
arguments `parse_word` supplies to the `HocrWord` dataclass include names
that are not fields of the dataclass (third conjunct), and consequently
`parse_word` raises `TypeError` instead of returning a word (fourth
conjunct). The claim matches the specification and the documented intent of
`parse_word` (return the word, or `None` on a silent drop); the dataclass
missing the styling fields is the code slip. -/
theorem C2_parse_word_raises_type_error :
    (ex_word_elem.get "id").getD "" = "word_1" ∧
    HocrParser.extract_bbox (HocrParser.parse_title_attribute
        ((ex_word_elem.get "title").getD "").toList) = some ⟨1, 2, 3, 4⟩ ∧
    HocrParser.dataclass_call_ok HocrParser.hocr_word_field_names
      HocrParser.parse_word_keyword_names = false ∧
    HocrParser.parse_word ex_word_elem =
      Except.error (PyExn.typeError
        "HocrWord.__init__() got an unexpected keyword argument: is_italic") :=
  ⟨rfl, rfl, rfl, rfl⟩

/-- C8: validation only ever produces findings. An unreadable image yields a
critical finding embedding the underlying error (first conjunct, for every
unit — including one with no documents, where the internal `IndexError` is
likewise caught); on a unit satisfying the one-or-more-documents invariant,
image dimensions differing from the primary page bbox span yield a critical
finding (second conjunct) and matching dimensions yield none (third
conjunct). In this embedding `validate_unit` is a total function into
finding lists, so no input makes it raise. -/
theorem C8_image_dimension_findings (unit : ProofreadingUnit) (unit_index : Int) :
    (∀ e, Validator.validate_image_dimensions (Except.error e) unit unit_index =
      [⟨"critical", Validator.fail_message unit.image_filename e, some unit_index⟩]) ∧
    (∀ w h primary rest, unit.hocr_documents = primary :: rest →
      (w ≠ primary.page.bbox.x2 - primary.page.bbox.x1 ∨
        h ≠ primary.page.bbox.y2 - primary.page.bbox.y1) →
      Validator.validate_image_dimensions (Except.ok (w, h)) unit unit_index =
        [⟨"critical",
          Validator.mismatch_message w h (primary.page.bbox.x2 - primary.page.bbox.x1)
            (primary.page.bbox.y2 - primary.page.bbox.y1) unit.image_filename,
          some unit_index⟩]) ∧
    (∀ w h primary rest, unit.hocr_documents = primary :: rest →
      w = primary.page.bbox.x2 - primary.page.bbox.x1 →
      h = primary.page.bbox.y2 - primary.page.bbox.y1 →
      Validator.validate_image_dimensions (Except.ok (w, h)) unit unit_index = []) := by
  refine ⟨fun e => rfl, ?_, ?_⟩
  · intro w h primary rest hdocs hne
    simp only [Validator.validate_image_dimensions, hdocs]
    rw [if_pos hne]
  · intro w h primary rest hdocs hw hh
    simp only [Validator.validate_image_dimensions, hdocs]
    rw [if_neg (by simp [hw, hh])]

/-- Witness for C8: on the concrete `ex_unit` (page span 8 x 6), a failed
dimension read yields the critical finding embedding the error, 7 x 6
yields the critical mismatch finding, and 8 x 6 yields no finding. -/
theorem C8_witness :
    Validator.validate_image_dimensions (Except.error "disk failure") ex_unit 0 =
      [⟨"critical", Validator.fail_message "img.jpg" "disk failure", some 0⟩] ∧
    Validator.validate_image_dimensions (Except.ok (7, 6)) ex_unit 0 =
      [⟨"critical", Validator.mismatch_message 7 6 8 6 "img.jpg", some 0⟩] ∧
    Validator.validate_image_dimensions (Except.ok (8, 6)) ex_unit 0 = [] :=
  ⟨(C8_image_dimension_findings ex_unit 0).1 "disk failure",
    (C8_image_dimension_findings ex_unit 0).2.1 7 6 ex_doc_t1 [] rfl
      (by decide),
    (C8_image_dimension_findings ex_unit 0).2.2 8 6 ex_doc_t1 [] rfl
      (by decide) (by decide)⟩

/-- C3: with `tolerance < critical_threshold`, each compared same-id word
pair with bbox `max_difference` d yields: no finding when d ≤ tolerance;
exactly one warning finding when tolerance < d ≤ critical_threshold;
exactly one critical finding when d > critical_threshold (first three
conjuncts). The whole bounding-box check decomposes into exactly those
per-pair findings over the unit's same-id pairs (fourth conjunct), and is
skipped entirely when the unit has at most one document (fifth conjunct). -/
theorem C3_severity_banding (tolerance critical_threshold : Int)
    (hlt : tolerance < critical_threshold) (image_filename primary_filename : String)
    (unit_index : Int) (pw ow : HocrWord) :
    (pw.bbox.max_difference ow.bbox ≤ tolerance →
      Validator.bbox_pair_messages tolerance critical_threshold image_filename
        primary_filename unit_index pw ow = []) ∧
    (tolerance < pw.bbox.max_difference ow.bbox →
      pw.bbox.max_difference ow.bbox ≤ critical_threshold →
      (Validator.bbox_pair_messages tolerance critical_threshold image_filename
        primary_filename unit_index pw ow).map ValidationMessage.level = ["warning"]) ∧
    (critical_threshold < pw.bbox.max_difference ow.bbox →
      (Validator.bbox_pair_messages tolerance critical_threshold image_filename
        primary_filename unit_index pw ow).map ValidationMessage.level = ["critical"]) ∧
    (∀ unit, Validator.validate_bounding_boxes tolerance critical_threshold unit
        unit_index =
      (Validator.unit_word_pairs unit).flatMap (fun p =>
        Validator.bbox_pair_messages tolerance critical_threshold unit.image_filename
          (Validator.primary_filename unit) unit_index p.1 p.2)) ∧
    (∀ unit img_dims, unit.hocr_documents.length ≤ 1 →
      Validator.validate_unit tolerance critical_threshold img_dims unit unit_index =
        Validator.validate_image_dimensions img_dims unit unit_index) := by
  refine ⟨?_, ?_, ?_, ?_, ?_⟩
  · intro hle
    simp only [Validator.bbox_pair_messages]
    rw [if_neg (by omega), if_neg (by omega)]
  · intro h1 h2
    simp only [Validator.bbox_pair_messages]
    rw [if_neg (by omega), if_pos h1]
    rfl
  · intro h1
    simp only [Validator.bbox_pair_messages]
    rw [if_pos h1]
    rfl
  · intro unit
    rcases hu : unit.hocr_documents with _ | ⟨primary, others⟩
    · simp [Validator.validate_bounding_boxes, Validator.unit_word_pairs, hu]
    · simp only [Validator.validate_bounding_boxes, Validator.unit_word_pairs,
        Validator.primary_filename, ProofreadingUnit.primary_document?, hu,
        List.head?_cons, List.flatMap_assoc, List.flatMap_map]
      simp
  · intro unit img_dims hle
    simp only [Validator.validate_unit]
    rw [if_neg (by omega)]
    simp

/-- Witness for C3: tolerance 2, critical threshold 20; deltas 1, 3 and 25
give no finding, one warning and one critical respectively, and a
single-document unit gets no bounding-box check. -/
theorem C3_witness :
    Validator.bbox_pair_messages 2 20 "i" "p" 0 ex_word_a ex_word_b1 = [] ∧
    (Validator.bbox_pair_messages 2 20 "i" "p" 0 ex_word_a ex_word_b3).map
      ValidationMessage.level = ["warning"] ∧
    (Validator.bbox_pair_messages 2 20 "i" "p" 0 ex_word_a ex_word_b25).map
      ValidationMessage.level = ["critical"] ∧
    Validator.validate_unit 2 20 (Except.ok (8, 6)) ex_unit 0 =
      Validator.validate_image_dimensions (Except.ok (8, 6)) ex_unit 0 :=
  ⟨(C3_severity_banding 2 20 (by decide) "i" "p" 0 ex_word_a ex_word_b1).1 (by decide),
    (C3_severity_banding 2 20 (by decide) "i" "p" 0 ex_word_a ex_word_b3).2.1
      (by decide) (by decide),
    (C3_severity_banding 2 20 (by decide) "i" "p" 0 ex_word_a ex_word_b25).2.2.1
      (by decide),
    (C3_severity_banding 2 20 (by decide) "i" "p" 0 ex_word_a ex_word_a).2.2.2.2
      ex_unit (Except.ok (8, 6)) (by decide)⟩

/-- C9: `create_merged_filename` strips the extension and any trailing run
of digits, optionally preceded by a single `_` or `-`, from the stem and
appends `-onepage.hocr`. First conjunct: arbitrary stem, one separator,
non-empty digit run, dot-free extension. Second conjunct: the bare digit
run, when the remaining stem does not itself end in a digit, `_` or `-`
(otherwise the pattern would take one more character). Third and fourth:
the two concrete derivations named by the specification. -/
theorem C9_create_merged_filename_spec :
    (∀ (s d ext : List Char) (sep : Char), sep = '_' ∨ sep = '-' → d ≠ [] →
      (∀ x ∈ d, x.isDigit) → (∀ c ∈ ext, c ≠ '.') →
      HocrExporter.create_merged_filename
          (String.mk ((s ++ sep :: d) ++ '.' :: ext)) =
        String.mk (s ++ "-onepage.hocr".toList)) ∧
    (∀ (s d ext : List Char), d ≠ [] →
      (∀ x ∈ d, x.isDigit) → (∀ c ∈ ext, c ≠ '.') →
      (∀ c, s.getLast? = some c → c.isDigit = false ∧ c ≠ '_' ∧ c ≠ '-') →
      HocrExporter.create_merged_filename
          (String.mk ((s ++ d) ++ '.' :: ext)) =
        String.mk (s ++ "-onepage.hocr".toList)) ∧
    HocrExporter.create_merged_filename "page_0001.jpg" = "page-onepage.hocr" ∧
    HocrExporter.create_merged_filename "lifeofmuhammadtr0000ibnh_0223.jpg"
      = "lifeofmuhammadtr0000ibnh-onepage.hocr" := by
  refine ⟨?_, ?_, rfl, rfl⟩
  · intro s d ext sep hsep hd hdd hext
    have hsepnd : sep ≠ '.' := by
      rcases hsep with h | h <;> simp [h]
    have hstem : HocrExporter.splitext_stem ((s ++ sep :: d) ++ '.' :: ext)
        = s ++ sep :: d :=
      splitext_stem_eq _ _ hext ⟨sep, by simp, hsepnd⟩
    show String.mk (HocrExporter.strip_trailing_number (HocrExporter.splitext_stem
        (String.mk ((s ++ sep :: d) ++ '.' :: ext)).toList)
          ++ "-onepage.hocr".toList) = _
    have htl : (String.mk ((s ++ sep :: d) ++ '.' :: ext)).toList
        = (s ++ sep :: d) ++ '.' :: ext := rfl
    rw [htl, hstem, strip_trailing_sep s d sep hsep hd hdd]
  · intro s d ext hd hdd hext hs
    have hdig : ∀ c : Char, c.isDigit → c ≠ '.' := by
      intro c h he
      subst he
      exact absurd h (by decide)
    obtain ⟨c0, hc0⟩ : ∃ c0, c0 ∈ d := by
      cases d with
      | nil => exact absurd rfl hd
      | cons x xs => exact ⟨x, by simp⟩
    have hstem : HocrExporter.splitext_stem ((s ++ d) ++ '.' :: ext) = s ++ d :=
      splitext_stem_eq _ _ hext ⟨c0, by simp [hc0], hdig c0 (hdd c0 hc0)⟩
    show String.mk (HocrExporter.strip_trailing_number (HocrExporter.splitext_stem
        (String.mk ((s ++ d) ++ '.' :: ext)).toList) ++ "-onepage.hocr".toList) = _
    have htl : (String.mk ((s ++ d) ++ '.' :: ext)).toList = (s ++ d) ++ '.' :: ext := rfl
    rw [htl, hstem, strip_trailing_nosep s d hd hdd hs]

/-- C6: for every non-empty document list supplied in any order, the unit
constructor leaves `hocr_documents` sorted by modification time descending
and a permutation of the input, the primary document carries the greatest
modification time, and with strictly ordered times T1 < T2 < T3 the primary
document is the T3 one regardless of supply order. -/
theorem C6_unit_documents_sorted (image_path image_filename basename : String)
    (sub : Option String) (docs : List HocrDocument) (hne : docs ≠ []) :
    List.Sorted docGe
      (mkProofreadingUnit image_path image_filename docs basename sub).hocr_documents ∧
    (mkProofreadingUnit image_path image_filename docs basename
        sub).hocr_documents.Perm docs ∧
    (∃ p, (mkProofreadingUnit image_path image_filename docs basename
          sub).primary_document? = some p ∧ p ∈ docs ∧
        ∀ d ∈ docs, d.modified_time ≤ p.modified_time) ∧
    (∀ d1 d2 d3, docs.Perm [d1, d2, d3] →
      d1.modified_time < d2.modified_time → d2.modified_time < d3.modified_time →
      (mkProofreadingUnit image_path image_filename docs basename
          sub).primary_document? = some d3) := by
  have hsorted : List.Sorted docGe (docs.insertionSort docGe) :=
    List.sorted_insertionSort docGe docs
  have hperm : (docs.insertionSort docGe).Perm docs := List.perm_insertionSort docGe docs
  have hmax : ∃ p, (docs.insertionSort docGe).head? = some p ∧ p ∈ docs ∧
      ∀ d ∈ docs, d.modified_time ≤ p.modified_time := by
    match hm : docs.insertionSort docGe with
    | [] =>
      rw [hm] at hperm
      exact absurd hperm.symm.eq_nil.symm (by exact fun h => hne h.symm)
    | p :: rest =>
      refine ⟨p, rfl, ?_, ?_⟩
      · exact hperm.mem_iff.mp (by rw [hm]; simp)
      · intro d hd
        have hdmem : d ∈ p :: rest := by
          rw [← hm]
          exact hperm.mem_iff.mpr hd
        rcases List.mem_cons.mp hdmem with h | h
        · rw [h]
        · exact List.rel_of_sorted_cons (hm ▸ hsorted) d h
  refine ⟨hsorted, hperm, hmax, ?_⟩
  intro d1 d2 d3 hpermd h12 h23
  obtain ⟨p, hheadp, hpmem, hpmax⟩ := hmax
  have hd3 : d3 ∈ docs := hpermd.symm.subset (by simp)
  have hle : d3.modified_time ≤ p.modified_time := hpmax d3 hd3
  have hp3 : p ∈ [d1, d2, d3] := hpermd.subset hpmem
  have hpeq : p = d3 := by
    rcases List.mem_cons.mp hp3 with h | h
    · exfalso
      rw [h] at hle
      omega
    rcases List.mem_cons.mp h with h2 | h2
    · exfalso
      rw [h2] at hle
      omega
    · simpa using h2
  rw [show (mkProofreadingUnit image_path image_filename docs basename
      sub).primary_document? = (docs.insertionSort docGe).head? from rfl, hheadp, hpeq]

/-- Witness for C6: three documents with times 1 < 2 < 3 supplied out of
order; the primary document is the time-3 one. -/
theorem C6_witness :
    (∃ p, (mkProofreadingUnit "i.jpg" "i.jpg" [ex_doc_t1, ex_doc_t3, ex_doc_t2]
          "i" none).primary_document? = some p ∧
        p ∈ [ex_doc_t1, ex_doc_t3, ex_doc_t2] ∧
        ∀ d ∈ [ex_doc_t1, ex_doc_t3, ex_doc_t2],
          d.modified_time ≤ p.modified_time) ∧
    (mkProofreadingUnit "i.jpg" "i.jpg" [ex_doc_t1, ex_doc_t3, ex_doc_t2]
        "i" none).primary_document? = some ex_doc_t3 :=
  ⟨(C6_unit_documents_sorted "i.jpg" "i.jpg" "i" none [ex_doc_t1, ex_doc_t3, ex_doc_t2]
      (by decide)).2.2.1,
    (C6_unit_documents_sorted "i.jpg" "i.jpg" "i" none [ex_doc_t1, ex_doc_t3, ex_doc_t2]
      (by decide)).2.2.2 ex_doc_t1 ex_doc_t2 ex_doc_t3
      (by decide) (by decide) (by decide)⟩

/-- Witness for C9: the general separator case instantiated at
`page_0001.jpg`. -/
theorem C9_witness :
    HocrExporter.create_merged_filename
        (String.mk (("page".toList ++ '_' :: "0001".toList) ++ '.' :: "jpg".toList)) =
      String.mk ("page".toList ++ "-onepage.hocr".toList) :=
  C9_create_merged_filename_spec.1 "page".toList "0001".toList "jpg".toList '_'
    (Or.inl rfl) (by decide) (by decide) (by decide)

theorem pyGet_pySet_self {k v : Type} [DecidableEq k] (d : List (k × v)) (key : k)
    (val : v) : pyGet (pySet d key val) key = some val := by
  induction d with
  | nil => simp [pySet, pyGet]
  | cons p rest ih =>
    by_cases h : p.1 = key
    · simp [pySet, pyGet, h]
    · simp [pySet, pyGet, h, ih]

/-- C4: for every session, word identifier and in-range unit index, the
index lookup succeeds (first conjunct), `get_word_text` returns the overlay
entry when one exists (second conjunct), and otherwise the text of the word
with that identifier in the unit's primary document, or the empty string
when the identifier is unknown there (third conjunct, through the
`Option.map`/`getD` composition); and after `set_word_text`, `get_word_text`
returns the written text regardless of the primary document's content
(fourth conjunct, proved for an arbitrary session). -/
theorem C4_get_word_text_resolution (s : ProofreadSession) (word_id : String)
    (unit_index : Int) (h0 : 0 ≤ unit_index)
    (h1 : unit_index < (s.units.length : Int)) :
    (∃ u, pyIndex s.units unit_index = some u) ∧
    (∀ t, s.overlay_entry unit_index word_id = some t →
      s.get_word_text word_id unit_index = Except.ok t) ∧
    (∀ u primary rest, pyIndex s.units unit_index = some u →
      u.hocr_documents = primary :: rest →
      s.overlay_entry unit_index word_id = none →
      s.get_word_text word_id unit_index =
        Except.ok (((primary.get_word_by_id word_id).map HocrWord.text).getD "")) ∧
    (∀ t, (s.set_word_text word_id t unit_index).get_word_text word_id unit_index =
      Except.ok t) := by
  refine ⟨?_, ?_, ?_, ?_⟩
  · refine ⟨s.units.get ⟨unit_index.toNat, by omega⟩, ?_⟩
    unfold pyIndex
    rw [if_pos h0]
    exact List.get?_eq_get (by omega)
  · intro t hov
    simp only [ProofreadSession.get_word_text, hov]
  · intro u primary rest hidx hdocs hov
    simp only [ProofreadSession.get_word_text, hov, hidx, hdocs]
  · intro t
    have hov : (s.set_word_text word_id t unit_index).overlay_entry unit_index word_id
        = some t := by
      simp [ProofreadSession.set_word_text, ProofreadSession.overlay_entry,
        pyGet_pySet_self]
    simp only [ProofreadSession.get_word_text, hov]

/-- Counterexample to C10 as stated: `-1` violates the claimed totality
precondition `0 ≤ unit_index < number of units` (first two conjuncts), yet
on a one-unit session with an empty overlay `get_word_text` at `-1` does
not fail with an index error — Python list indexing accepts negative
indices within `-n ≤ i`, so it returns the primary document's text. -/
theorem C10_counterexample :
    ¬ (0 ≤ (-1 : Int)) ∧ ex_session.units.length = 1 ∧
      ProofreadSession.get_word_text ex_session "w1" (-1) = Except.ok "hi" :=
  ⟨by decide, rfl, rfl⟩

/-- C10 amended: `set_word_text` records an edit for any `unit_index`
whatsoever, creating the overlay entry unconditionally (first conjunct);
when the overlay has no entry, `get_word_text` fails with an index error
exactly for the indices Python list indexing rejects, i.e.
`unit_index ≥ n` or `unit_index < -n` (second conjunct); and `get_word_text`
is total for `-n ≤ unit_index < n` on sessions whose units satisfy the
one-or-more-documents invariant (third conjunct). -/
theorem C10_set_get_overlay_totality :
    (∀ (s : ProofreadSession) (word_id t : String) (unit_index : Int),
      (s.set_word_text word_id t unit_index).overlay_entry unit_index word_id
        = some t) ∧
    (∀ (s : ProofreadSession) (word_id : String) (unit_index : Int),
      ((s.units.length : Int) ≤ unit_index ∨ unit_index < -(s.units.length : Int)) →
      s.overlay_entry unit_index word_id = none →
      s.get_word_text word_id unit_index =
        Except.error "IndexError: list index out of range") ∧
    (∀ (s : ProofreadSession) (word_id : String) (unit_index : Int),
      -(s.units.length : Int) ≤ unit_index → unit_index < (s.units.length : Int) →
      (∀ u ∈ s.units, u.hocr_documents ≠ []) →
      ∃ t, s.get_word_text word_id unit_index = Except.ok t) := by
  refine ⟨?_, ?_, ?_⟩
  · intro s word_id t unit_index
    simp [ProofreadSession.set_word_text, ProofreadSession.overlay_entry,
      pyGet_pySet_self]
  · intro s word_id unit_index hout hov
    have hidx : pyIndex s.units unit_index = none := by
      unfold pyIndex
      rcases hout with h | h
      · rw [if_pos (by omega)]
        exact List.get?_eq_none.mpr (by omega)
      · rw [if_neg (by omega), if_neg (by omega)]
    simp only [ProofreadSession.get_word_text, hov, hidx]
  · intro s word_id unit_index hlo hhi hinv
    match hov : s.overlay_entry unit_index word_id with
    | some t => exact ⟨t, by simp only [ProofreadSession.get_word_text, hov]⟩
    | none =>
      have hidx : ∃ u, pyIndex s.units unit_index = some u := by
        unfold pyIndex
        by_cases h0 : 0 ≤ unit_index
        · rw [if_pos h0]
          exact ⟨_, List.get?_eq_get (by omega)⟩
        · rw [if_neg h0, if_pos (by omega)]
          exact ⟨_, List.get?_eq_get (by omega)⟩
      obtain ⟨u, hu⟩ := hidx
      have humem : u ∈ s.units := by
        unfold pyIndex at hu
        by_cases h0 : 0 ≤ unit_index
        · rw [if_pos h0] at hu
          exact List.get?_mem hu
        · rw [if_neg h0] at hu
          by_cases h2 : (-unit_index).toNat ≤ s.units.length
          · rw [if_pos h2] at hu
            exact List.get?_mem hu
          · rw [if_neg h2] at hu
            exact absurd hu (by simp)
      match hdocs : u.hocr_documents with
      | [] => exact absurd hdocs (hinv u humem)
      | primary :: rest =>
        refine ⟨((primary.get_word_by_id word_id).map HocrWord.text).getD "", ?_⟩
        simp only [ProofreadSession.get_word_text, hov, hu, hdocs]

/-- Witness for C4: resolution on the concrete one-unit session at index 0:
the index lookup succeeds, the (empty-overlay) fallback returns the primary
document's text, and a write is read back. -/
theorem C4_witness :
    (∃ u, pyIndex ex_session.units 0 = some u) ∧
    ProofreadSession.get_word_text ex_session "w1" 0 = Except.ok "hi" ∧
    ProofreadSession.get_word_text
        (ProofreadSession.set_word_text ex_session "w1" "Foo" 0) "w1" 0 =
      Except.ok "Foo" :=
  ⟨(C4_get_word_text_resolution ex_session "w1" 0 (by decide) (by decide)).1,
    (C4_get_word_text_resolution ex_session "w1" 0 (by decide) (by decide)).2.2.1
      (mkProofreadingUnit "img.jpg" "img.jpg"
        [⟨"f.hocr", "f.hocr", "",
          ⟨⟨0, 0, 10, 10⟩, [⟨⟨1, 2, 3, 4⟩, [⟨"w1", "hi", ⟨1, 2, 3, 4⟩, 95, none⟩]⟩]⟩,
          5⟩] "img" none)
      ⟨"f.hocr", "f.hocr", "",
        ⟨⟨0, 0, 10, 10⟩, [⟨⟨1, 2, 3, 4⟩, [⟨"w1", "hi", ⟨1, 2, 3, 4⟩, 95, none⟩]⟩]⟩, 5⟩
      [] rfl rfl rfl,
    (C4_get_word_text_resolution ex_session "w1" 0 (by decide) (by decide)).2.2.2
      "Foo"⟩

/-- Witness for C10 (amended): a write at the nonexistent index 5 is
recorded and read back; a read at the out-of-range index 3 with no overlay
entry fails with the index error; a read at the in-range index 0 succeeds. -/
theorem C10_witness :
    (ProofreadSession.set_word_text ex_session "w9" "Foo" 5).overlay_entry 5 "w9"
      = some "Foo" ∧
    ProofreadSession.get_word_text ex_session "w9" 3 =
      Except.error "IndexError: list index out of range" ∧
    (∃ t, ProofreadSession.get_word_text ex_session "w9" 0 = Except.ok t) :=
  ⟨C10_set_get_overlay_totality.1 ex_session "w9" "Foo" 5,
    C10_set_get_overlay_totality.2.1 ex_session "w9" 3 (by decide) rfl,
    C10_set_get_overlay_totality.2.2 ex_session "w9" 0 (by decide) (by decide)
      (by decide)⟩

theorem pySetAdd_mem {α : Type} [DecidableEq α] (l : List α) (x y : α) :
    y ∈ pySetAdd l x ↔ y ∈ l ∨ y = x := by
  unfold pySetAdd
  by_cases h : x ∈ l
  · rw [if_pos h]
    constructor
    · exact Or.inl
    · rintro (hy | rfl)
      · exact hy
      · exact h
  · rw [if_neg h]
    simp

theorem pySetAdd_nodup {α : Type} [DecidableEq α] (l : List α) (x : α)
    (h : l.Nodup) : (pySetAdd l x).Nodup := by
  unfold pySetAdd
  by_cases hx : x ∈ l
  · rw [if_pos hx]
    exact h
  · rw [if_neg hx]
    simp [List.nodup_append, h, hx]

theorem match_texts_fold_nodup (word_id : String) (docs : List HocrDocument) :
    ∀ acc : List String, acc.Nodup →
      (docs.foldl (fun texts doc =>
        match doc.get_word_by_id word_id with
        | some word => pySetAdd texts word.text
        | none => texts) acc).Nodup := by
  induction docs with
  | nil => intro acc h; exact h
  | cons d rest ih =>
    intro acc h
    simp only [List.foldl_cons]
    match d.get_word_by_id word_id with
    | some word => exact ih _ (pySetAdd_nodup _ _ h)
    | none => exact ih _ h

theorem match_texts_fold_mem (word_id : String) (docs : List HocrDocument)
    (x : String) :
    ∀ acc : List String,
      (x ∈ docs.foldl (fun texts doc =>
        match doc.get_word_by_id word_id with
        | some word => pySetAdd texts word.text
        | none => texts) acc
      ↔ x ∈ acc ∨ ∃ doc ∈ docs, ∃ w, doc.get_word_by_id word_id = some w ∧
          w.text = x) := by
  induction docs with
  | nil => intro acc; simp
  | cons d rest ih =>
    intro acc
    simp only [List.foldl_cons]
    match hw : d.get_word_by_id word_id with
    | some word =>
      rw [ih (pySetAdd acc word.text)]
      rw [pySetAdd_mem]
      constructor
      · rintro ((hy | rfl) | ⟨doc, hdoc, w, hfind, htext⟩)
        · exact Or.inl hy
        · exact Or.inr ⟨d, by simp, word, hw, rfl⟩
        · exact Or.inr ⟨doc, by simp [hdoc], w, hfind, htext⟩
      · rintro (hy | ⟨doc, hdoc, w, hfind, htext⟩)
        · exact Or.inl (Or.inl hy)
        · rcases List.mem_cons.mp hdoc with rfl | hdoc2
          · rw [hw] at hfind
            cases hfind
            exact Or.inl (Or.inr htext.symm)
          · exact Or.inr ⟨doc, hdoc2, w, hfind, htext⟩
    | none =>
      rw [ih acc]
      constructor
      · rintro (hy | ⟨doc, hdoc, w, hfind, htext⟩)
        · exact Or.inl hy
        · exact Or.inr ⟨doc, by simp [hdoc], w, hfind, htext⟩
      · rintro (hy | ⟨doc, hdoc, w, hfind, htext⟩)
        · exact Or.inl hy
        · rcases List.mem_cons.mp hdoc with rfl | hdoc2
          · rw [hw] at hfind
            cases hfind
          · exact Or.inr ⟨doc, hdoc2, w, hfind, htext⟩

theorem find?_eq_head?_filter {α : Type} (p : α → Bool) (l : List α) :
    l.find? p = (l.filter p).head? := by
  induction l with
  | nil => rfl
  | cons x xs ih =>
    by_cases h : p x
    · rw [List.find?_cons_of_pos _ h, List.filter_cons_of_pos h]
      rfl
    · rw [List.find?_cons_of_neg _ (by simp [h]), List.filter_cons_of_neg (by simp [h]), ih]

theorem nodup_len_le_one {α : Type} (l : List α) (h : l.Nodup) :
    l.length ≤ 1 ↔ ∀ a ∈ l, ∀ b ∈ l, a = b := by
  match l with
  | [] => simp
  | [x] => simp
  | x :: y :: rest =>
    simp only [List.length_cons]
    constructor
    · intro hlen
      omega
    · intro hab
      exfalso
      have : x = y := hab x (by simp) y (by simp)
      rw [List.nodup_cons] at h
      exact h.1 (this ▸ List.mem_cons_self y rest)

/-- C5: under the per-document id-uniqueness invariant of the data model
(at most one word per identifier in a document), `words_match_across_documents`
returns true iff the set of distinct text values carried by words with that
identifier across all the unit's documents has cardinality at most one — in
particular an identifier present in no document matches trivially (empty
set). And `all_words_match_in_unit` returns true iff the unit has at most
one document or every primary-document word individually matches. -/
theorem C5_words_match_iff (unit : ProofreadingUnit) (word_id : String) :
    ((∀ doc ∈ unit.hocr_documents,
        ((doc.page.get_all_words).filter (fun w => w.word_id == word_id)).length ≤ 1) →
      (Validator.words_match_across_documents unit word_id = true ↔
        (Validator.spec_distinct_texts unit word_id).length ≤ 1)) ∧
    (Validator.all_words_match_in_unit unit = true ↔
      (unit.hocr_documents.length ≤ 1 ∨
        ∀ primary, unit.primary_document? = some primary →
          ∀ w ∈ primary.page.get_all_words,
            Validator.words_match_across_documents unit w.word_id = true)) := by
  constructor
  · intro huniq
    have hmem : ∀ x, x ∈ Validator.match_texts unit word_id ↔
        x ∈ Validator.spec_distinct_texts unit word_id := by
      intro x
      unfold Validator.match_texts
      rw [match_texts_fold_mem word_id unit.hocr_documents x []]
      simp only [List.mem_nil_iff, false_or]
      unfold Validator.spec_distinct_texts
      rw [List.mem_dedup, List.mem_map]
      constructor
      · rintro ⟨doc, hdoc, w, hfind, htext⟩
        refine ⟨w, ?_, htext⟩
        rw [List.mem_filter]
        unfold HocrDocument.get_word_by_id at hfind
        have hwmem : w ∈ doc.page.get_all_words :=
          List.mem_of_find?_eq_some hfind
        have hwp : (w.word_id == word_id) = true := by
          have hp := List.find?_some hfind
          simpa using hp
        exact ⟨List.mem_flatMap.mpr ⟨doc, hdoc, hwmem⟩, hwp⟩
      · rintro ⟨w, hwmem, htext⟩
        rw [List.mem_filter] at hwmem
        obtain ⟨hwflat, hwp⟩ := hwmem
        obtain ⟨doc, hdoc, hwdoc⟩ := List.mem_flatMap.mp hwflat
        refine ⟨doc, hdoc, w, ?_, htext⟩
        rw [HocrDocument.get_word_by_id, find?_eq_head?_filter]
        have hwfil : w ∈ (doc.page.get_all_words).filter
            (fun word => word.word_id == word_id) := List.mem_filter.mpr ⟨hwdoc, hwp⟩
        have hlen := huniq doc hdoc
        have hfil_eq : (doc.page.get_all_words).filter
            (fun word => word.word_id == word_id) = [w] := by
          match hf : (doc.page.get_all_words).filter
              (fun word => word.word_id == word_id) with
          | [] =>
            rw [hf] at hwfil
            cases hwfil
          | [w0] =>
            rw [hf] at hwfil
            simp at hwfil
            rw [hf, hwfil]
          | w0 :: w1 :: ws =>
            rw [hf] at hlen
            simp at hlen
        rw [hfil_eq]
        rfl
    have hnodup1 : (Validator.match_texts unit word_id).Nodup :=
      match_texts_fold_nodup word_id unit.hocr_documents [] (by simp)
    have hnodup2 : (Validator.spec_distinct_texts unit word_id).Nodup :=
      List.nodup_dedup _
    rw [Validator.words_match_across_documents, decide_eq_true_eq,
      nodup_len_le_one _ hnodup1, nodup_len_le_one _ hnodup2]
    constructor
    · intro h a ha b hb
      exact h a ((hmem a).mpr ha) b ((hmem b).mpr hb)
    · intro h a ha b hb
      exact h a ((hmem a).mp ha) b ((hmem b).mp hb)
  · unfold Validator.all_words_match_in_unit
    by_cases hlen : unit.hocr_documents.length ≤ 1
    · rw [if_pos hlen]
      simp [hlen]
    · rw [if_neg hlen]
      match hdocs : unit.hocr_documents with
      | [] =>
        rw [hdocs] at hlen
        simp at hlen
      | primary :: rest =>
        have hprim : unit.primary_document? = some primary := by
          rw [ProofreadingUnit.primary_document?, hdocs]
          rfl
        rw [List.all_eq_true]
        constructor
        · intro h
          refine Or.inr ?_
          intro p hp w hw
          rw [hprim] at hp
          cases hp
          exact h w hw
        · rintro (h | h)
          · rw [hdocs] at hlen
            exact absurd h hlen
          · intro w hw
            exact h primary hprim w hw

/-- Witness for C5: the three-document the/the/teh unit satisfies the
id-uniqueness hypothesis; the matching predicate coincides with the
distinct-text-set cardinality rule there, and the unit-level rule holds. -/
theorem C5_witness :
    (Validator.words_match_across_documents ex_unit3 "w1" = true ↔
      (Validator.spec_distinct_texts ex_unit3 "w1").length ≤ 1) ∧
    (Validator.all_words_match_in_unit ex_unit3 = true ↔
      (ex_unit3.hocr_documents.length ≤ 1 ∨
        ∀ primary, ex_unit3.primary_document? = some primary →
          ∀ w ∈ primary.page.get_all_words,
            Validator.words_match_across_documents ex_unit3 w.word_id = true)) :=
  ⟨(C5_words_match_iff ex_unit3 "w1").1 (by decide),
    (C5_words_match_iff ex_unit3 "w1").2⟩

/-- Structural induction over markup trees: prove a property of every
element from the hypothesis that it holds whenever it holds for all
children. -/
def Elem.strongInduction {P : Elem → Prop}
    (h : ∀ tag attrs text cs tail, (∀ c ∈ cs, P c) → P (.mk tag attrs text cs tail)) :
    ∀ e, P e
  | .mk tag attrs text cs tail =>
    h tag attrs text cs tail (fun c hc =>
      have : sizeOf c < sizeOf (Elem.mk tag attrs text cs tail) := by
        have hlt := List.sizeOf_lt_of_mem hc
        simp only [Elem.mk.sizeOf_spec]
        omega
      Elem.strongInduction h c)
termination_by e => sizeOf e

theorem descendantsList_any (p : Elem → Bool) :
    ∀ cs : List Elem, (Elem.descendantsList cs).any p
      = cs.any (fun c => (c.docOrder).any p) := by
  intro cs
  induction cs with
  | nil => rfl
  | cons c rest ih =>
    rw [Elem.descendantsList, List.any_cons, List.any_append, ih, List.any_cons]
    rw [Elem.docOrder, List.any_cons]

theorem hasId_mk (wid tag : String) (attrs : List (String × String))
    (text : String) (cs : List Elem) (tail : String) :
    Elem.hasId wid (.mk tag attrs text cs tail)
      = ((pyGet attrs "id" == some wid) || cs.any (Elem.hasId wid)) := by
  rw [Elem.hasId, Elem.docOrder, List.any_cons]
  rw [show (Elem.mk tag attrs text cs tail).descendants = Elem.descendantsList cs
    from rfl]
  rw [descendantsList_any]
  rfl

theorem updateById_not_found (wid : String) (f : Elem → Elem) :
    ∀ e, Elem.hasId wid e = false → Elem.updateById wid f e = (e, false) := by
  intro e
  induction e using Elem.strongInduction with
  | h tag attrs text cs tail ih =>
    intro hnf
    rw [hasId_mk] at hnf
    simp only [Bool.or_eq_false_iff] at hnf
    rw [Elem.updateById, if_neg (by simp [hnf.1])]
    have hlist : ∀ l : List Elem,
        (∀ c ∈ l, Elem.hasId wid c = false → Elem.updateById wid f c = (c, false)) →
        l.any (Elem.hasId wid) = false →
        Elem.updateByIdList wid f l = (l, false) := by
      intro l
      induction l with
      | nil =>
        intro _ _
        rfl
      | cons c rest ihl =>
        intro hmem hany
        rw [List.any_cons, Bool.or_eq_false_iff] at hany
        rw [Elem.updateByIdList, hmem c (by simp) hany.1]
        simp only [if_neg (by simp : ¬ (false = true))]
        rw [ihl (fun c2 hc2 => hmem c2 (List.mem_cons_of_mem _ hc2)) hany.2]
    rw [hlist cs (fun c hc => ih c hc) hnf.2]

/-- C7: exporting with an empty edit map leaves the re-parsed tree — hence
every word's text content and title bbox — unchanged (first conjunct; the
pretty-printed serialization is an external effect, so content preservation
is stated through the `word_content` projection); and every edited
identifier matching no element of the tree is skipped silently, leaving the
tree unchanged and raising nothing (second conjunct). -/
theorem C7_export_empty_and_unknown :
    (∀ root : Elem, HocrExporter.export_unit_tree root [] = root ∧
      HocrExporter.word_content (HocrExporter.export_unit_tree root []) =
        HocrExporter.word_content root) ∧
    (∀ (root : Elem) (changes : List (String × HocrExporter.Change)),
      (∀ p ∈ changes, Elem.hasId p.1 root = false) →
      HocrExporter.export_unit_tree root changes = root) := by
  constructor
  · intro root
    exact ⟨rfl, rfl⟩
  · intro root changes
    induction changes with
    | nil =>
      intro _
      rfl
    | cons c rest ih =>
      intro hids
      rw [HocrExporter.export_unit_tree, List.foldl_cons]
      rw [updateById_not_found c.1 (HocrExporter.apply_change c.2) root
        (hids c (by simp))]
      exact ih (fun p hp => hids p (List.mem_cons_of_mem _ hp))

/-- Witness for C7: an edit map naming only an identifier absent from
`ex_root` leaves the tree untouched. -/
theorem C7_witness :
    HocrExporter.export_unit_tree ex_root
      [("missing_word", HocrExporter.Change.plainText "x")] = ex_root :=
  C7_export_empty_and_unknown.2 ex_root
    [("missing_word", HocrExporter.Change.plainText "x")] (by decide)

end OcrProofread
